import Mathlib

/-!
Shallow embedding of the Koinos token-example contract
(`src/assembly/Token.ts`) and verification of its specification.

Modelling choices:

* Addresses are opaque byte identifiers; we model them as `List Nat`.
  The contract stores balances keyed by address and allowances keyed by
  the 50-byte concatenation of two fixed-width (25-byte) addresses; for
  fixed-width addresses that concatenation is injective, so the
  allowance key is modelled as the pair `(owner, spender)`.
* `u64` quantities are modelled as `Nat` with explicit reduction
  `% 2 ^ 64` wherever the AssemblyScript `+=` could wrap; guarded
  subtractions (`-=` after a `>=` require) are exact.
* Storage maps are association lists.  The balance map has the default
  `0` for absent keys (`() => new token.uint64(0)`); the allowance map
  has default `null`, so lookups return `Option Nat` and an absent
  record is distinct from a stored `0`.
* Host context (`System.getCaller`, the transaction signers recovered
  by `getSigners`, `System.getContractId`) is passed in explicitly as a
  `Ctx`; signature recovery itself is outside the contract.
* `Constants.max_supply` is a build-time `u64` constant whose source
  file is not part of the core; operations are parametrised by
  `maxSupply` (a `u64`, hence `< 2 ^ 64` where that matters).
* A failing operation (`System.require` / `SafeMath.sub` revert) is an
  `Except.error`; the transactional wrapper `applyOp` models the host
  semantics in which a reverted operation leaves storage unchanged.
-/

namespace TokenSpec

/-- An address: an opaque byte identifier. -/
abbrev Addr := List Nat

/-- `2 ^ 64`, the modulus of `u64` arithmetic. -/
def U64 : Nat := 18446744073709551616

/-- Generic association-list lookup (the `Storage.Map.get` of the SDK,
with `null` default). -/
def lookupKV {κ : Type} [DecidableEq κ] : List (κ × Nat) → κ → Option Nat
  | [], _ => none
  | (k, v) :: t, k2 => if k = k2 then some v else lookupKV t k2

/-- Generic association-list write (the `Storage.Map.put` of the SDK):
replaces the first binding of the key, or appends a new one. -/
def putKV {κ : Type} [DecidableEq κ] : List (κ × Nat) → κ → Nat → List (κ × Nat)
  | [], k2, v2 => [(k2, v2)]
  | (k, v) :: t, k2, v2 => if k = k2 then (k2, v2) :: t else (k, v) :: putKV t k2 v2

/-- Sum of all stored values of an association list. -/
def sumKV {κ : Type} : List (κ × Nat) → Nat
  | [] => 0
  | (_, v) :: t => v + sumKV t

/-- The balances map: account address to `u64` balance. -/
abbrev Ledger := List (Addr × Nat)

/-- The allowances map: `(owner, spender)` to remaining `u64` allowance. -/
abbrev AllowTable := List ((Addr × Addr) × Nat)

/-- Balance read with the map's zero default
(`this.balances.get(owner)` with default `token.uint64(0)`). -/
def getBal (l : Ledger) (a : Addr) : Nat := (lookupKV l a).getD 0

/-- Balance write (`this.balances.put`). -/
def putBal (l : Ledger) (a : Addr) (v : Nat) : Ledger := putKV l a v

/-- Contract storage state: supply object, balance map, allowance map. -/
structure State where
  supply : Nat
  balances : Ledger
  allowances : AllowTable
  deriving Repr, DecidableEq

/-- Host-provided call context: the contract's own id
(`System.getContractId`), the immediate calling contract
(`System.getCaller().caller`, empty when the call came directly from a
signed transaction), and the signer addresses `getSigners()` recovers
from the transaction's signature list against its id. -/
structure Ctx where
  contractId : Addr
  caller : Addr
  signers : List Addr
  deriving Repr, DecidableEq

/-- Errors: the three `System.require` / `SafeMath.sub` revert reasons. -/
inductive TokenError where
  | authorizationDenied
  | insufficientBalance
  | supplyOverflow
  deriving Repr, DecidableEq

/-- Payload of an emitted event. -/
inductive EventData where
  | approveEv (owner spender : Addr) (value : Nat)
  | transferEv (source dest : Addr) (value : Nat)
  | mintEv (dest : Addr) (value : Nat)
  deriving Repr, DecidableEq

/-- An emitted event: name, payload, impacted-accounts list. -/
structure Event where
  name : String
  data : EventData
  impacted : List Addr
  deriving Repr, DecidableEq

/-- The allowance-spend step inlined in `check_authority`
(Token.ts lines 167-173): look the record up; if it exists and holds at
least `amount`, decrement it in place and succeed, else fail with no
mutation. -/
def spend_allowance (al : AllowTable) (k : Addr × Addr) (amount : Nat) :
    Bool × AllowTable :=
  match lookupKV al k with
  | some v => if amount ≤ v then (true, putKV al k (v - amount)) else (false, al)
  | none => (false, al)

/-- `Token.check_authority` (Token.ts lines 150-196).  With a calling
contract present: when `acceptAllowances` is set, first try to spend the
`(account, caller)` allowance; otherwise succeed only when the caller is
the account itself; signatures are never consulted.  With no calling
contract: succeed exactly when `account` is among the recovered signers
(the `Arrays.equal` loop over `getSigners()`). -/
def check_authority (ctx : Ctx) (s : State) (account : Addr)
    (acceptAllowances : Bool) (amount : Nat) : Bool × State :=
  if 0 < ctx.caller.length then
    if acceptAllowances ∧ (spend_allowance s.allowances (account, ctx.caller) amount).1 then
      (true, { s with allowances := (spend_allowance s.allowances (account, ctx.caller) amount).2 })
    else if account = ctx.caller then (true, s)
    else (false, s)
  else
    (decide (account ∈ ctx.signers), s)

/-- `Token.allowance` (the public query): stored value, or `0` when the
record is absent. -/
def allowance (s : State) (owner spender : Addr) : Nat :=
  match lookupKV s.allowances (owner, spender) with
  | none => 0
  | some v => v

/-- `Token._approve`: unconditionally overwrite the allowance and emit
`token.approve` with impacted list `[spender, owner]`. -/
def _approve (s : State) (owner spender : Addr) (value : Nat) :
    State × List Event :=
  ({ s with allowances := putKV s.allowances (owner, spender) value },
   [⟨"token.approve", EventData.approveEv owner spender value, [spender, owner]⟩])

/-- `Token._transfer`: require `fromBalance >= value` (else revert with
the insufficient-balance message), debit `from` and persist it, then
re-read and credit `to` (`u64` addition, modelled mod `2 ^ 64`), and
emit `token.transfer` with impacted list `[to, from]`. -/
def _transfer (s : State) (source dest : Addr) (value : Nat) :
    Except TokenError (State × List Event) :=
  let fromBalance := getBal s.balances source
  if value ≤ fromBalance then
    let b1 := putBal s.balances source (fromBalance - value)
    let toBalance := getBal b1 dest
    let b2 := putBal b1 dest ((toBalance + value) % U64)
    Except.ok ({ s with balances := b2 },
      [⟨"token.transfer", EventData.transferEv source dest value, [dest, source]⟩])
  else
    Except.error TokenError.insufficientBalance

/-- `SafeMath.sub` on `u64`: reverts (here `none`) on underflow. -/
def safeSub (a b : Nat) : Option Nat := if b ≤ a then some (a - b) else none

/-- `Token._mint`: require `supply <= SafeMath.sub(max_supply, value)`
(`SafeMath.sub` itself reverts when `value > max_supply`), then credit
`to` and increment the supply (`u64` additions, modelled mod `2 ^ 64`),
and emit `token.mint` with impacted list `[to]`. -/
def _mint (maxSupply : Nat) (s : State) (dest : Addr) (value : Nat) :
    Except TokenError (State × List Event) :=
  match safeSub maxSupply value with
  | none => Except.error TokenError.supplyOverflow
  | some d =>
    if s.supply ≤ d then
      let toBalance := getBal s.balances dest
      Except.ok ({ s with
          balances := putBal s.balances dest ((toBalance + value) % U64),
          supply := (s.supply + value) % U64 },
        [⟨"token.mint", EventData.mintEv dest value, [dest]⟩])
    else
      Except.error TokenError.supplyOverflow

/-- `Token.approve`: authorize the owner (`allow_allowance = false`,
amount `0`), then `_approve`. -/
def approve (ctx : Ctx) (s : State) (owner spender : Addr) (value : Nat) :
    Except TokenError (State × List Event) :=
  if (check_authority ctx s owner false 0).1 then
    Except.ok (_approve (check_authority ctx s owner false 0).2 owner spender value)
  else Except.error TokenError.authorizationDenied

/-- `Token.transfer`: authorize `from` (`allow_allowance = true`, amount
`value`), then `_transfer`. -/
def transfer (ctx : Ctx) (s : State) (source dest : Addr) (value : Nat) :
    Except TokenError (State × List Event) :=
  if (check_authority ctx s source true value).1 then
    _transfer (check_authority ctx s source true value).2 source dest value
  else Except.error TokenError.authorizationDenied

/-- `Token.mint`: authorize the contract's own id
(`allow_allowance = false`, amount `0`), then `_mint`. -/
def mint (maxSupply : Nat) (ctx : Ctx) (s : State) (dest : Addr) (value : Nat) :
    Except TokenError (State × List Event) :=
  if (check_authority ctx s ctx.contractId false 0).1 then
    _mint maxSupply (check_authority ctx s ctx.contractId false 0).2 dest value
  else Except.error TokenError.authorizationDenied

/-- `Token.burn`: administratively disabled — the body is commented out
in the source, so it performs no check, no mutation and no event, and
returns an empty object. -/
def burn (ctx : Ctx) (s : State) (source : Addr) (value : Nat) :
    Except TokenError (State × List Event) :=
  Except.ok (s, [])

/-- One public operation of the contract together with its arguments. -/
inductive Op where
  | approveOp (owner spender : Addr) (value : Nat)
  | transferOp (source dest : Addr) (value : Nat)
  | mintOp (dest : Addr) (value : Nat)
  | burnOp (source : Addr) (value : Nat)
  deriving Repr, DecidableEq

/-- Dispatch one public operation. -/
def runOp (maxSupply : Nat) (ctx : Ctx) (s : State) : Op → Except TokenError (State × List Event)
  | Op.approveOp o sp v => approve ctx s o sp v
  | Op.transferOp a b v => transfer ctx s a b v
  | Op.mintOp d v => mint maxSupply ctx s d v
  | Op.burnOp a v => burn ctx s a v

/-- Modelled from the spec: the host execution environment (not part of
the core source) runs each operation transactionally — a reverted
operation rolls every storage write back, so a failure leaves the state
unchanged (spec sections 5 and 7). -/
def applyOp (maxSupply : Nat) (ctx : Ctx) (s : State) (op : Op) : State :=
  match runOp maxSupply ctx s op with
  | Except.ok (s2, _) => s2
  | Except.error _ => s

/-- The initial state: zero supply, no balances, no allowances. -/
def initialState : State := ⟨0, [], []⟩

/-- States reachable from the initial state by any sequence of public
operations, each invoked under an arbitrary host context. -/
inductive Reachable (maxSupply : Nat) : State → Prop where
  | base : Reachable maxSupply initialState
  | step (ctx : Ctx) (op : Op) {s : State} :
      Reachable maxSupply s → Reachable maxSupply (applyOp maxSupply ctx s op)

/-- The ledger invariant: the stored balances sum to the supply, which
never exceeds the maximum supply. -/
def Inv (maxSupply : Nat) (s : State) : Prop :=
  sumKV s.balances = s.supply ∧ s.supply ≤ maxSupply

instance (maxSupply : Nat) (s : State) : Decidable (Inv maxSupply s) := by
  unfold Inv
  exact instDecidableAnd

/-! ### Association-list lemmas -/

theorem lookupKV_putKV {κ : Type} [DecidableEq κ] (l : List (κ × Nat)) (k k2 : κ) (v : Nat) :
    lookupKV (putKV l k v) k2 = if k = k2 then some v else lookupKV l k2 := by
  induction l with
  | nil => by_cases h : k = k2 <;> simp [putKV, lookupKV, h]
  | cons hd t ih =>
    obtain ⟨c, w⟩ := hd
    by_cases hck : c = k
    · subst hck
      by_cases h : c = k2 <;> simp [putKV, lookupKV, h]
    · by_cases h : c = k2
      · subst h
        have hk : ¬ k = c := fun he => hck he.symm
        simp [putKV, lookupKV, hck, hk]
      · simp [putKV, lookupKV, hck, h, ih]

theorem sumKV_putKV {κ : Type} [DecidableEq κ] (l : List (κ × Nat)) (k : κ) (v : Nat) :
    sumKV (putKV l k v) + (lookupKV l k).getD 0 = sumKV l + v := by
  induction l with
  | nil => simp [putKV, lookupKV, sumKV]
  | cons hd t ih =>
    obtain ⟨c, w⟩ := hd
    by_cases hck : c = k
    · subst hck; simp [putKV, lookupKV, sumKV]; omega
    · simp [putKV, lookupKV, sumKV, hck]; omega

theorem lookupKV_getD_le_sumKV {κ : Type} [DecidableEq κ] (l : List (κ × Nat)) (k : κ) :
    (lookupKV l k).getD 0 ≤ sumKV l := by
  induction l with
  | nil => simp [lookupKV, sumKV]
  | cons hd t ih =>
    obtain ⟨c, w⟩ := hd
    by_cases hck : c = k
    · subst hck; simp [lookupKV, sumKV]
    · simp [lookupKV, sumKV, hck]; omega

theorem putKV_lookup_self {κ : Type} [DecidableEq κ] (l : List (κ × Nat)) (k : κ) (v : Nat)
    (h : lookupKV l k = some v) : putKV l k v = l := by
  induction l with
  | nil => simp [lookupKV] at h
  | cons hd t ih =>
    obtain ⟨c, w⟩ := hd
    by_cases hck : c = k
    · subst hck
      simp [lookupKV] at h
      simp [putKV, h]
    · simp [lookupKV, hck] at h
      simp [putKV, hck, ih h]

/-! ### Frame lemmas for the authority check -/

theorem check_authority_balances (ctx : Ctx) (s : State) (account : Addr)
    (aa : Bool) (amount : Nat) :
    (check_authority ctx s account aa amount).2.balances = s.balances ∧
    (check_authority ctx s account aa amount).2.supply = s.supply := by
  unfold check_authority
  split_ifs <;> simp

theorem check_authority_noallow (ctx : Ctx) (s : State) (account : Addr) (amount : Nat) :
    (check_authority ctx s account false amount).2 = s := by
  unfold check_authority
  split_ifs <;> simp_all

theorem check_authority_noallow_result (ctx : Ctx) (s t : State) (account : Addr)
    (amount amount2 : Nat) :
    (check_authority ctx s account false amount).1 =
    (check_authority ctx t account false amount2).1 := by
  unfold check_authority
  split_ifs <;> simp_all

/-! ### Ledger-level corollaries of the generic lemmas -/

theorem sumKV_putBal (l : Ledger) (a : Addr) (v : Nat) :
    sumKV (putBal l a v) + getBal l a = sumKV l + v :=
  sumKV_putKV l a v

theorem getBal_le_sumKV (l : Ledger) (a : Addr) : getBal l a ≤ sumKV l :=
  lookupKV_getD_le_sumKV l a

theorem getBal_putBal (l : Ledger) (a b : Addr) (v : Nat) :
    getBal (putBal l a v) b = if a = b then v else getBal l b := by
  unfold getBal putBal
  rw [lookupKV_putKV]
  split <;> simp

/-! ### Success characterizations of the core mutators -/

theorem _transfer_ok_iff {s s2 : State} {ev : List Event} {a b : Addr} {v : Nat} :
    _transfer s a b v = Except.ok (s2, ev) ↔
    (v ≤ getBal s.balances a ∧
     s2 = { s with balances := (putBal (putBal s.balances a (getBal s.balances a - v)) b
         ((getBal (putBal s.balances a (getBal s.balances a - v)) b + v) % U64)) } ∧
     ev = [⟨"token.transfer", EventData.transferEv a b v, [b, a]⟩]) := by
  simp only [_transfer]
  split
  · rename_i h
    constructor
    · intro hok
      injection hok with hp
      injection hp with h1 h2
      exact ⟨h, h1.symm, h2.symm⟩
    · rintro ⟨_, rfl, rfl⟩
      rfl
  · rename_i h
    constructor
    · intro hok
      cases hok
    · rintro ⟨hv, _⟩
      exact absurd hv h

theorem _mint_ok_iff {m : Nat} {s s2 : State} {ev : List Event} {d : Addr} {v : Nat} :
    _mint m s d v = Except.ok (s2, ev) ↔
    (v ≤ m ∧ s.supply ≤ m - v ∧
     s2 = { s with balances := (putBal s.balances d ((getBal s.balances d + v) % U64))
                   supply := ((s.supply + v) % U64) } ∧
     ev = [⟨"token.mint", EventData.mintEv d v, [d]⟩]) := by
  simp only [_mint, safeSub]
  by_cases hvm : v ≤ m
  · simp only [if_pos hvm]
    by_cases hs : s.supply ≤ m - v
    · simp only [if_pos hs]
      constructor
      · intro hok
        injection hok with hp
        injection hp with h1 h2
        exact ⟨hvm, hs, h1.symm, h2.symm⟩
      · rintro ⟨_, _, rfl, rfl⟩
        rfl
    · simp only [if_neg hs]
      constructor
      · intro hok
        cases hok
      · rintro ⟨_, hs2, _, _⟩
        exact absurd hs2 hs
  · simp only [if_neg hvm]
    constructor
    · intro hok
      cases hok
    · rintro ⟨hv2, _, _, _⟩
      exact absurd hv2 hvm

/-! ### Invariant preservation -/

theorem _transfer_inv {m : Nat} {s s2 : State} {ev : List Event} {a b : Addr} {v : Nat}
    (hm : m < U64) (hsum : sumKV s.balances = s.supply) (hle : s.supply ≤ m)
    (hok : _transfer s a b v = Except.ok (s2, ev)) :
    sumKV s2.balances = s.supply ∧ s2.supply = s.supply := by
  obtain ⟨hv, rfl, rfl⟩ := _transfer_ok_iff.mp hok
  refine ⟨?_, rfl⟩
  have hfble := getBal_le_sumKV s.balances a
  have hsum1 := sumKV_putBal s.balances a (getBal s.balances a - v)
  have htble := getBal_le_sumKV (putBal s.balances a (getBal s.balances a - v)) b
  have hmod : (getBal (putBal s.balances a (getBal s.balances a - v)) b + v) % U64
      = getBal (putBal s.balances a (getBal s.balances a - v)) b + v := by
    apply Nat.mod_eq_of_lt
    omega
  have hsum2 := sumKV_putBal (putBal s.balances a (getBal s.balances a - v)) b
    ((getBal (putBal s.balances a (getBal s.balances a - v)) b + v) % U64)
  rw [hmod] at hsum2
  show sumKV (putBal (putBal s.balances a (getBal s.balances a - v)) b
      ((getBal (putBal s.balances a (getBal s.balances a - v)) b + v) % U64)) = s.supply
  rw [hmod]
  omega

theorem _mint_inv {m : Nat} {s s2 : State} {ev : List Event} {d : Addr} {v : Nat}
    (hm : m < U64) (hsum : sumKV s.balances = s.supply) (hle : s.supply ≤ m)
    (hok : _mint m s d v = Except.ok (s2, ev)) :
    sumKV s2.balances = s2.supply ∧ s2.supply ≤ m := by
  obtain ⟨hvm, hs, rfl, rfl⟩ := _mint_ok_iff.mp hok
  have htble := getBal_le_sumKV s.balances d
  have hmods : (s.supply + v) % U64 = s.supply + v := by
    apply Nat.mod_eq_of_lt
    omega
  have hmodb : (getBal s.balances d + v) % U64 = getBal s.balances d + v := by
    apply Nat.mod_eq_of_lt
    omega
  have hsum1 := sumKV_putBal s.balances d ((getBal s.balances d + v) % U64)
  constructor
  · show sumKV (putBal s.balances d ((getBal s.balances d + v) % U64)) = (s.supply + v) % U64
    rw [hmods]
    omega
  · show (s.supply + v) % U64 ≤ m
    rw [hmods]
    omega

theorem runOp_ok_inv {m : Nat} {ctx : Ctx} {s s2 : State} {ev : List Event} {op : Op}
    (hm : m < U64) (hsum : sumKV s.balances = s.supply) (hle : s.supply ≤ m)
    (hok : runOp m ctx s op = Except.ok (s2, ev)) :
    sumKV s2.balances = s2.supply ∧ s2.supply ≤ m := by
  cases op with
  | approveOp o sp v =>
    simp only [runOp, approve] at hok
    split at hok
    · injection hok with hp
      injection hp with h1 h2
      subst h1
      have hf := check_authority_balances ctx s o false 0
      simp only [_approve]
      constructor
      · show sumKV (check_authority ctx s o false 0).2.balances
            = (check_authority ctx s o false 0).2.supply
        rw [hf.1, hf.2]
        exact hsum
      · show (check_authority ctx s o false 0).2.supply ≤ m
        rw [hf.2]
        exact hle
    · cases hok
  | transferOp a b v =>
    simp only [runOp, transfer] at hok
    split at hok
    · have hf := check_authority_balances ctx s a true v
      have h1 : sumKV (check_authority ctx s a true v).2.balances
          = (check_authority ctx s a true v).2.supply := by rw [hf.1, hf.2]; exact hsum
      have h2 : (check_authority ctx s a true v).2.supply ≤ m := by rw [hf.2]; exact hle
      have := _transfer_inv hm h1 h2 hok
      rw [hf.2] at this
      exact ⟨this.1.trans this.2.symm, this.2.le.trans hle⟩
    · cases hok
  | mintOp d v =>
    simp only [runOp, mint] at hok
    split at hok
    · rw [check_authority_noallow] at hok
      exact _mint_inv hm hsum hle hok
    · cases hok
  | burnOp a v =>
    simp only [runOp, burn] at hok
    injection hok with hp
    injection hp with h1 h2
    subst h1
    exact ⟨hsum, hle⟩

theorem applyOp_inv {m : Nat} {s : State} (hm : m < U64) (h : Inv m s) (ctx : Ctx) (op : Op) :
    Inv m (applyOp m ctx s op) := by
  obtain ⟨hsum, hle⟩ := h
  unfold applyOp
  rcases hr : runOp m ctx s op with e | ⟨s2, ev⟩
  · exact ⟨hsum, hle⟩
  · exact runOp_ok_inv hm hsum hle hr

theorem reachable_inv {m : Nat} {s : State} (hm : m < U64) (hr : Reachable m s) :
    Inv m s := by
  induction hr with
  | base => exact ⟨rfl, Nat.zero_le m⟩
  | step ctx op hprev ih => exact applyOp_inv hm ih ctx op

/-! ### Characterization of the allowance spend -/

theorem spend_allowance_ok_iff {al : AllowTable} {k : Addr × Addr} {amount : Nat} :
    (spend_allowance al k amount).1 = true ↔
    ∃ v, lookupKV al k = some v ∧ amount ≤ v := by
  unfold spend_allowance
  rcases h : lookupKV al k with _ | v
  · simp
  · by_cases hle : amount ≤ v <;> simp [hle]

theorem spend_allowance_ok_state {al : AllowTable} {k : Addr × Addr} {amount v : Nat}
    (h : lookupKV al k = some v) (hle : amount ≤ v) :
    (spend_allowance al k amount).1 = true ∧
    (spend_allowance al k amount).2 = putKV al k (v - amount) := by
  unfold spend_allowance
  rw [h]
  simp [hle]

theorem spend_allowance_fail_state {al : AllowTable} {k : Addr × Addr} {amount : Nat}
    (h : (spend_allowance al k amount).1 = false) :
    (spend_allowance al k amount).2 = al := by
  unfold spend_allowance
  rcases hl : lookupKV al k with _ | v
  · rfl
  · by_cases hle : amount ≤ v
    · exfalso
      have h2 := (spend_allowance_ok_state hl hle).1
      rw [h] at h2
      cases h2
    · simp [hle]

/-- The contract-caller branch of `check_authority`, written out. -/
theorem check_authority_caller_eq (ctx : Ctx) (s : State) (account : Addr)
    (aa : Bool) (amount : Nat) (hc : 0 < ctx.caller.length) :
    check_authority ctx s account aa amount =
    (if aa ∧ (spend_allowance s.allowances (account, ctx.caller) amount).1 then
      (true, { s with allowances := (spend_allowance s.allowances (account, ctx.caller) amount).2 })
    else if account = ctx.caller then (true, s)
    else (false, s)) := by
  unfold check_authority
  rw [if_pos hc]

/-! ### Claims -/

/-- C1: every state reachable from the initial state (zero supply, no
balances, no allowances) by any sequence of approve / transfer / mint /
burn operations has its stored balances summing to `total_supply`, and
`total_supply ≤ MAX_SUPPLY`. -/
theorem c1_reachable_supply_invariant (maxSupply : Nat) (s : State)
    (hm : maxSupply < U64) (hr : Reachable maxSupply s) :
    sumKV s.balances = s.supply ∧ s.supply ≤ maxSupply :=
  reachable_inv hm hr

theorem c1_witness :
    sumKV (applyOp 1000 ⟨[7], [7], []⟩ initialState (Op.mintOp [1] 5)).balances
      = (applyOp 1000 ⟨[7], [7], []⟩ initialState (Op.mintOp [1] 5)).supply
    ∧ (applyOp 1000 ⟨[7], [7], []⟩ initialState (Op.mintOp [1] 5)).supply ≤ 1000 :=
  c1_reachable_supply_invariant 1000 _ (by decide)
    (Reachable.step ⟨[7], [7], []⟩ (Op.mintOp [1] 5) Reachable.base)

/-- C3: with no immediate calling contract, authorization succeeds iff
the account is among the recovered transaction signers, and on this
path no allowance is read (the outcome is the same for every allowance
table) or written (the state is returned unchanged), for any
`allow_allowance` flag and amount. -/
theorem c3_signature_path (ctx : Ctx) (s : State) (account : Addr)
    (aa : Bool) (amount : Nat) (hc : ctx.caller.length = 0) :
    ((check_authority ctx s account aa amount).1 = true ↔ account ∈ ctx.signers)
    ∧ (check_authority ctx s account aa amount).2 = s
    ∧ (∀ al : AllowTable,
        check_authority ctx { s with allowances := al } account aa amount
          = ((check_authority ctx s account aa amount).1, { s with allowances := al })) := by
  have hnc : ¬ 0 < ctx.caller.length := by omega
  refine ⟨?_, ?_, ?_⟩
  · unfold check_authority
    rw [if_neg hnc]
    simp
  · unfold check_authority
    rw [if_neg hnc]
  · intro al
    unfold check_authority
    rw [if_neg hnc, if_neg hnc]

theorem c3_witness :
    (check_authority ⟨[9], [], [[1], [3]]⟩ ⟨0, [], []⟩ [1] true 5).1 = true :=
  (c3_signature_path ⟨[9], [], [[1], [3]]⟩ ⟨0, [], []⟩ [1] true 5 rfl).1.mpr
    (by decide)

/-- C4: `spend_allowance` succeeds exactly when the record exists with
stored value at least the amount; on success that record decreases by
exactly the amount, on failure the table is untouched; and `_transfer`
(the balance logic of transfer) never writes the allowance table. -/
theorem c4_spend_allowance_exact (al : AllowTable) (o sp : Addr) (amount : Nat) :
    ((spend_allowance al (o, sp) amount).1 = true ↔
      ∃ v, lookupKV al (o, sp) = some v ∧ amount ≤ v)
    ∧ (∀ v, lookupKV al (o, sp) = some v → amount ≤ v →
        lookupKV (spend_allowance al (o, sp) amount).2 (o, sp) = some (v - amount))
    ∧ ((spend_allowance al (o, sp) amount).1 = false →
        (spend_allowance al (o, sp) amount).2 = al)
    ∧ (∀ (s : State) (a b : Addr) (w : Nat) (s2 : State) (ev : List Event),
        _transfer s a b w = Except.ok (s2, ev) → s2.allowances = s.allowances) := by
  refine ⟨spend_allowance_ok_iff, ?_, spend_allowance_fail_state, ?_⟩
  · intro v h hle
    rw [(spend_allowance_ok_state h hle).2, lookupKV_putKV]
    simp
  · intro s a b w s2 ev hok
    obtain ⟨_, rfl, _⟩ := _transfer_ok_iff.mp hok
    rfl

theorem c4_witness :
    (spend_allowance [(([1], [2]), 5)] ([1], [2]) 3).1 = true
    ∧ lookupKV (spend_allowance [(([1], [2]), 5)] ([1], [2]) 3).2 ([1], [2]) = some 2 := by
  constructor
  · exact (c4_spend_allowance_exact [(([1], [2]), 5)] [1] [2] 3).1.mpr ⟨5, rfl, by decide⟩
  · exact (c4_spend_allowance_exact [(([1], [2]), 5)] [1] [2] 3).2.1 5 rfl (by decide)

/-- C7: `burn` of any arguments in any state returns success without an
authorization check, without mutating any balance, allowance or supply,
and without emitting an event. -/
theorem c7_burn_is_noop (ctx : Ctx) (s : State) (source : Addr) (value : Nat) :
    burn ctx s source value = Except.ok (s, ([] : List Event)) :=
  rfl

/-- C2: with an immediate calling contract `C` present, authorization
succeeds iff (tried first, when `allow_allowance` holds) the
`(account, C)` allowance exists with stored value at least the amount —
in which case it is decremented by the amount — or (tried second) `C`
equals the account; the state is unchanged on every other outcome, and
the transaction signers are never consulted on this path. -/
theorem c2_caller_path (ctx : Ctx) (s : State) (account : Addr)
    (aa : Bool) (amount : Nat) (hc : 0 < ctx.caller.length) :
    ((check_authority ctx s account aa amount).1 = true ↔
      ((aa = true ∧ ∃ v, lookupKV s.allowances (account, ctx.caller) = some v ∧ amount ≤ v)
        ∨ account = ctx.caller))
    ∧ (∀ v, aa = true → lookupKV s.allowances (account, ctx.caller) = some v → amount ≤ v →
        (check_authority ctx s account aa amount).2
          = { s with allowances := putKV s.allowances (account, ctx.caller) (v - amount) })
    ∧ ((aa = false ∨ ∀ v, lookupKV s.allowances (account, ctx.caller) = some v → v < amount) →
        (check_authority ctx s account aa amount).2 = s)
    ∧ (∀ sgns : List Addr,
        check_authority { ctx with signers := sgns } s account aa amount
          = check_authority ctx s account aa amount) := by
  rw [check_authority_caller_eq ctx s account aa amount hc]
  refine ⟨?_, ?_, ?_, ?_⟩
  · by_cases h1 : aa = true ∧ (spend_allowance s.allowances (account, ctx.caller) amount).1 = true
    · rw [if_pos h1]
      constructor
      · intro _
        exact Or.inl ⟨h1.1, spend_allowance_ok_iff.mp h1.2⟩
      · intro _
        rfl
    · rw [if_neg h1]
      by_cases h2 : account = ctx.caller
      · rw [if_pos h2]
        constructor
        · intro _
          exact Or.inr h2
        · intro _
          rfl
      · rw [if_neg h2]
        constructor
        · intro hfalse
          cases hfalse
        · rintro (⟨haa, v, hl, hle⟩ | h2c)
          · exact absurd ⟨haa, spend_allowance_ok_iff.mpr ⟨v, hl, hle⟩⟩ h1
          · exact absurd h2c h2
  · intro v haa hl hle
    have hsp := spend_allowance_ok_state hl hle
    rw [if_pos ⟨haa, hsp.1⟩]
    show { s with allowances := (spend_allowance s.allowances (account, ctx.caller) amount).2 }
        = { s with allowances := putKV s.allowances (account, ctx.caller) (v - amount) }
    rw [hsp.2]
  · intro h
    have h1 : ¬ (aa = true ∧ (spend_allowance s.allowances (account, ctx.caller) amount).1 = true) := by
      rintro ⟨haa, hs1⟩
      obtain ⟨v, hl, hle⟩ := spend_allowance_ok_iff.mp hs1
      rcases h with h | h
      · rw [h] at haa
        cases haa
      · have h2 := h v hl
        omega
    rw [if_neg h1]
    by_cases h2 : account = ctx.caller
    · rw [if_pos h2]
    · rw [if_neg h2]
  · intro sgns
    rw [check_authority_caller_eq { ctx with signers := sgns } s account aa amount hc]

theorem c2_witness :
    (check_authority ⟨[9], [2], []⟩ ⟨0, [], [(([1], [2]), 5)]⟩ [1] true 3).1 = true :=
  (c2_caller_path ⟨[9], [2], []⟩ ⟨0, [], [(([1], [2]), 5)]⟩ [1] true 3 (by decide)).1.mpr
    (Or.inl ⟨rfl, 5, rfl, by decide⟩)

/-- C5: an authorized transfer whose `from` balance is below the value
fails with the insufficient-balance error (not the authorization
error), and under the host's transactional semantics the whole
operation — including the allowance consumed while authorizing —
leaves every balance and allowance at its pre-call value. -/
theorem c5_insufficient_balance_atomic (m : Nat) (ctx : Ctx) (s : State)
    (source dest : Addr) (value : Nat)
    (hauth : (check_authority ctx s source true value).1 = true)
    (hbal : getBal s.balances source < value) :
    transfer ctx s source dest value = Except.error TokenError.insufficientBalance
    ∧ applyOp m ctx s (Op.transferOp source dest value) = s := by
  have hb2 : getBal (check_authority ctx s source true value).2.balances source < value := by
    rw [(check_authority_balances ctx s source true value).1]
    exact hbal
  have ht : transfer ctx s source dest value = Except.error TokenError.insufficientBalance := by
    unfold transfer
    rw [if_pos hauth]
    simp only [_transfer]
    rw [if_neg (by omega :
      ¬ value ≤ getBal (check_authority ctx s source true value).2.balances source)]
  refine ⟨ht, ?_⟩
  unfold applyOp
  simp only [runOp]
  rw [ht]

theorem c5_witness :
    transfer ⟨[9], [2], []⟩ ⟨0, [], [(([1], [2]), 5)]⟩ [1] [3] 3
      = Except.error TokenError.insufficientBalance
    ∧ applyOp 1000 ⟨[9], [2], []⟩ ⟨0, [], [(([1], [2]), 5)]⟩ (Op.transferOp [1] [3] 3)
      = ⟨0, [], [(([1], [2]), 5)]⟩ :=
  c5_insufficient_balance_atomic 1000 ⟨[9], [2], []⟩ ⟨0, [], [(([1], [2]), 5)]⟩
    [1] [3] 3 (by decide) (by decide)

/-- C6: an authorized mint fails with the supply-overflow error exactly
when `current_supply > MAX_SUPPLY - value` under overflow-safe
subtraction (so `value > MAX_SUPPLY` also fails), a failed mint leaves
the state unchanged under the transactional semantics, a successful
mint raises the recipient's balance and the supply by exactly `value`,
and minting `u64::MAX` with nonzero current supply always fails. -/
theorem c6_mint_overflow_guard (m : Nat) (ctx : Ctx) (s : State)
    (dest : Addr) (value : Nat) (hm : m < U64)
    (hauth : (check_authority ctx s ctx.contractId false 0).1 = true)
    (hinv : sumKV s.balances = s.supply ∧ s.supply ≤ m) :
    (mint m ctx s dest value = Except.error TokenError.supplyOverflow ↔
      (m - value < s.supply ∨ m < value))
    ∧ ((m - value < s.supply ∨ m < value) → applyOp m ctx s (Op.mintOp dest value) = s)
    ∧ (∀ s2 ev, mint m ctx s dest value = Except.ok (s2, ev) →
        getBal s2.balances dest = getBal s.balances dest + value ∧ s2.supply = s.supply + value)
    ∧ (value = U64 - 1 → 0 < s.supply →
        mint m ctx s dest value = Except.error TokenError.supplyOverflow) := by
  have hmint : mint m ctx s dest value = _mint m s dest value := by
    unfold mint
    rw [if_pos hauth, check_authority_noallow]
  have herr : _mint m s dest value = Except.error TokenError.supplyOverflow ↔
      (m - value < s.supply ∨ m < value) := by
    unfold _mint safeSub
    by_cases hvm : value ≤ m
    · simp only [if_pos hvm]
      by_cases hs : s.supply ≤ m - value
      · simp only [if_pos hs]
        constructor
        · intro h
          cases h
        · intro h
          exact absurd h (by omega)
      · simp only [if_neg hs]
        constructor
        · intro _
          left
          omega
        · intro _
          trivial
    · simp only [if_neg hvm]
      constructor
      · intro _
        right
        omega
      · intro _
        trivial
  refine ⟨hmint.symm ▸ herr, ?_, ?_, ?_⟩
  · intro h
    have he : mint m ctx s dest value = Except.error TokenError.supplyOverflow :=
      hmint.trans (herr.mpr h)
    unfold applyOp
    simp only [runOp]
    rw [he]
  · intro s2 ev hok
    rw [hmint] at hok
    obtain ⟨hvm, hs, rfl, rfl⟩ := _mint_ok_iff.mp hok
    have htble := getBal_le_sumKV s.balances dest
    have h1 : getBal s.balances dest + value < U64 := by omega
    constructor
    · show getBal (putBal s.balances dest ((getBal s.balances dest + value) % U64)) dest
        = getBal s.balances dest + value
      rw [getBal_putBal, if_pos rfl, Nat.mod_eq_of_lt h1]
    · show (s.supply + value) % U64 = s.supply + value
      exact Nat.mod_eq_of_lt (by omega)
  · intro hval hpos
    rw [hmint]
    apply herr.mpr
    omega

theorem c6_witness :
    mint 1000 ⟨[7], [7], []⟩ ⟨5, [([1], 5)], []⟩ [3] (U64 - 1)
      = Except.error TokenError.supplyOverflow :=
  (c6_mint_overflow_guard 1000 ⟨[7], [7], []⟩ ⟨5, [([1], 5)], []⟩ [3] (U64 - 1)
    (by decide) (by decide) ⟨by decide, by decide⟩).2.2.2 rfl (by decide)

/-- C8: an authorized approve unconditionally overwrites the
`(owner, spender)` allowance with `value` whatever was stored (or
absent) before, emitting a `token.approve` event with impacted list
`[spender, owner]`; approving again with the same value returns the
same state, so repetition leaves the allowance at `value`. -/
theorem c8_approve_overwrite_idempotent (ctx : Ctx) (s : State)
    (owner spender : Addr) (value : Nat)
    (hauth : (check_authority ctx s owner false 0).1 = true) :
    approve ctx s owner spender value
      = Except.ok ({ s with allowances := putKV s.allowances (owner, spender) value },
          [⟨"token.approve", EventData.approveEv owner spender value, [spender, owner]⟩])
    ∧ lookupKV (putKV s.allowances (owner, spender) value) (owner, spender) = some value
    ∧ approve ctx { s with allowances := putKV s.allowances (owner, spender) value }
        owner spender value
      = Except.ok ({ s with allowances := putKV s.allowances (owner, spender) value },
          [⟨"token.approve", EventData.approveEv owner spender value, [spender, owner]⟩]) := by
  have hlk : lookupKV (putKV s.allowances (owner, spender) value) (owner, spender)
      = some value := by
    rw [lookupKV_putKV]
    simp
  have h1 : approve ctx s owner spender value
      = Except.ok ({ s with allowances := putKV s.allowances (owner, spender) value },
          [⟨"token.approve", EventData.approveEv owner spender value, [spender, owner]⟩]) := by
    unfold approve
    rw [if_pos hauth, check_authority_noallow]
    rfl
  refine ⟨h1, hlk, ?_⟩
  have hauth2 : (check_authority ctx
      { s with allowances := putKV s.allowances (owner, spender) value } owner false 0).1
      = true :=
    (check_authority_noallow_result ctx
      { s with allowances := putKV s.allowances (owner, spender) value } s owner 0 0).trans hauth
  unfold approve
  rw [if_pos hauth2, check_authority_noallow]
  unfold _approve
  rw [putKV_lookup_self (putKV s.allowances (owner, spender) value) (owner, spender) value hlk]

theorem c8_witness :
    approve ⟨[9], [2], []⟩ ⟨0, [], []⟩ [2] [3] 7
      = Except.ok ({ supply := 0, balances := [], allowances := putKV [] ([2], [3]) 7 },
          [⟨"token.approve", EventData.approveEv [2] [3] 7, [[3], [2]]⟩]) :=
  (c8_approve_overwrite_idempotent ⟨[9], [2], []⟩ ⟨0, [], []⟩ [2] [3] 7 (by decide)).1

/-- C9: a zero-value transfer through a calling contract `C ≠ from`
completes exactly when an allowance record keyed `(from, C)` is stored —
an explicit zero record suffices — and fails with the authorization
error when the record is absent, even though the public allowance query
reports `0` in both situations. -/
theorem c9_zero_transfer_absent_vs_zero (ctx : Ctx) (s : State) (source dest : Addr)
    (hc : 0 < ctx.caller.length) (hne : source ≠ ctx.caller) :
    ((∃ r, transfer ctx s source dest 0 = Except.ok r) ↔
      (lookupKV s.allowances (source, ctx.caller)).isSome = true)
    ∧ (lookupKV s.allowances (source, ctx.caller) = none →
        transfer ctx s source dest 0 = Except.error TokenError.authorizationDenied
          ∧ allowance s source ctx.caller = 0)
    ∧ (lookupKV s.allowances (source, ctx.caller) = some 0 →
        allowance s source ctx.caller = 0) := by
  rcases hl : lookupKV s.allowances (source, ctx.caller) with _ | v
  · have hsp : (spend_allowance s.allowances (source, ctx.caller) 0).1 = false := by
      unfold spend_allowance
      rw [hl]
    have hca : check_authority ctx s source true 0 = (false, s) := by
      rw [check_authority_caller_eq ctx s source true 0 hc]
      rw [if_neg (by rintro ⟨_, h⟩; rw [hsp] at h; cases h), if_neg hne]
    have ht : transfer ctx s source dest 0 = Except.error TokenError.authorizationDenied := by
      unfold transfer
      rw [hca]
      rfl
    refine ⟨?_, fun _ => ⟨ht, ?_⟩, ?_⟩
    · constructor
      · rintro ⟨r, hr⟩
        rw [ht] at hr
        cases hr
      · intro hs2
        simp at hs2
    · unfold allowance
      rw [hl]
    · intro h
      cases h
  · have hsp := spend_allowance_ok_state hl (Nat.zero_le v)
    have hca : check_authority ctx s source true 0
        = (true, { s with allowances := (spend_allowance s.allowances (source, ctx.caller) 0).2 }) := by
      rw [check_authority_caller_eq ctx s source true 0 hc]
      rw [if_pos ⟨rfl, hsp.1⟩]
    have ht : ∃ r, transfer ctx s source dest 0 = Except.ok r := by
      have hok : ∃ r, _transfer
          { s with allowances := (spend_allowance s.allowances (source, ctx.caller) 0).2 }
          source dest 0 = Except.ok r :=
        ⟨_, _transfer_ok_iff.mpr ⟨Nat.zero_le _, rfl, rfl⟩⟩
      obtain ⟨r, hr⟩ := hok
      refine ⟨r, ?_⟩
      unfold transfer
      rw [hca]
      exact hr
    refine ⟨⟨fun _ => rfl, fun _ => ht⟩, ?_, ?_⟩
    · intro h
      cases h
    · intro h
      injection h with hv
      unfold allowance
      rw [hl]
      show v = 0
      exact hv

theorem c9_witness :
    transfer ⟨[9], [2], []⟩ ⟨0, [], []⟩ [1] [3] 0
      = Except.error TokenError.authorizationDenied
    ∧ allowance ⟨0, [], []⟩ [1] [2] = 0 :=
  (c9_zero_transfer_absent_vs_zero ⟨[9], [2], []⟩ ⟨0, [], []⟩ [1] [3]
    (by decide) (by decide)).2.1 rfl

/-- C10: an authorized, sufficiently funded self-transfer succeeds and
leaves every balance and the total supply unchanged — the debit to
`from` is persisted before the credit side re-reads the balance, so no
tokens are created or destroyed. -/
theorem c10_self_transfer_conserves (ctx : Ctx) (s : State) (source : Addr) (value : Nat)
    (hauth : (check_authority ctx s source true value).1 = true)
    (hbal : value ≤ getBal s.balances source)
    (hfit : getBal s.balances source < U64) :
    ∃ s2 ev, transfer ctx s source source value = Except.ok (s2, ev)
      ∧ (∀ a, getBal s2.balances a = getBal s.balances a)
      ∧ s2.supply = s.supply := by
  have hf := check_authority_balances ctx s source true value
  have hbal1 : value ≤ getBal (check_authority ctx s source true value).2.balances source := by
    rw [hf.1]
    exact hbal
  have ht : transfer ctx s source source value
      = _transfer (check_authority ctx s source true value).2 source source value := by
    unfold transfer
    rw [if_pos hauth]
  refine ⟨_, _, ht.trans (_transfer_ok_iff.mpr ⟨hbal1, rfl, rfl⟩), ?_, ?_⟩
  · intro a
    have h1 : getBal (putBal (check_authority ctx s source true value).2.balances source
        (getBal (check_authority ctx s source true value).2.balances source - value)) source
        = getBal (check_authority ctx s source true value).2.balances source - value := by
      rw [getBal_putBal, if_pos rfl]
    show getBal (putBal (putBal (check_authority ctx s source true value).2.balances source
        (getBal (check_authority ctx s source true value).2.balances source - value)) source
        ((getBal (putBal (check_authority ctx s source true value).2.balances source
          (getBal (check_authority ctx s source true value).2.balances source - value)) source
          + value) % U64)) a
      = getBal s.balances a
    rw [h1]
    have hmod : (getBal (check_authority ctx s source true value).2.balances source - value
        + value) % U64 = getBal (check_authority ctx s source true value).2.balances source := by
      have he : getBal (check_authority ctx s source true value).2.balances source - value
          + value = getBal (check_authority ctx s source true value).2.balances source := by
        omega
      rw [he, hf.1]
      exact Nat.mod_eq_of_lt hfit
    rw [hmod, getBal_putBal, getBal_putBal]
    by_cases hsa : source = a
    · rw [if_pos hsa, ← hsa, hf.1]
    · rw [if_neg hsa, if_neg hsa, hf.1]
  · exact hf.2

theorem c10_witness :
    ∃ s2 ev, transfer ⟨[9], [2], []⟩ ⟨10, [([1], 10)], [(([1], [2]), 5)]⟩ [1] [1] 3
        = Except.ok (s2, ev)
      ∧ (∀ a, getBal s2.balances a = getBal ([([1], 10)] : Ledger) a)
      ∧ s2.supply = 10 :=
  c10_self_transfer_conserves ⟨[9], [2], []⟩ ⟨10, [([1], 10)], [(([1], [2]), 5)]⟩ [1] 3
    (by decide) (by decide) (by decide)

end TokenSpec
